import Mathlib

/-!
Verification of the cronbat execution engine against its specification.

Each section embeds one component of the Go source as Lean definitions:

* `RingBuffer`       — internal/runner/runner.go (tail capture of process output)
* `CappedFileWriter` — internal/runlog/manager.go (capped persistent stream files)
* `buildEnv`         — internal/runner/env.go (subprocess environment construction)
* the run store      — internal/store/migrate.go (RecordRun / GetRun / ListRuns)
* `executeJob`       — cmd/cronbat/main.go (orchestration of one job execution)
* the scheduler      — internal/scheduler (min-heap queue, container/heap algorithms)

Machine integers are modelled as Nat/Int, byte slices as lists, time instants
as natural numbers, and the SQLite table as a list of rows.  External effects
(the subprocess itself, the filesystem, wall clocks, fresh run ids) enter the
model as explicit parameters.
-/

namespace Cronbat

/-- A byte of a process output stream, modelled abstractly. -/
abbrev Byte := Nat

/-- Model of Go's `copy(dst[off:], src)` on byte slices: overwrite the
elements of `dst` starting at `off` with the elements of `src`, copying
`min (dst.length - off) src.length` elements, and leave the rest unchanged. -/
def setRange (dst : List Byte) (off : Nat) (src : List Byte) : List Byte :=
  let k := min (dst.length - off) src.length
  dst.take off ++ src.take k ++ dst.drop (off + k)

theorem length_setRange (dst : List Byte) (off : Nat) (src : List Byte)
    (h : off ≤ dst.length) : (setRange dst off src).length = dst.length := by
  unfold setRange
  simp only [List.length_append, List.length_take, List.length_drop]
  omega

/-- RingBuffer from internal/runner/runner.go: a fixed-size circular buffer
that retains only the most recent bytes written, up to its capacity. -/
structure RingBuffer where
  buf : List Byte
  size : Nat
  pos : Nat
  full : Bool

/-- NewRingBuffer: `make([]byte, size)` plus zeroed position/flag. -/
def newRingBuffer (size : Nat) : RingBuffer :=
  { buf := List.replicate size 0, size := size, pos := 0, full := false }

/-- RingBuffer.Write from runner.go.  Returns the updated buffer and the
reported byte count (Go returns `(len(p), nil)` on every path). -/
def RingBuffer.write (rb : RingBuffer) (p : List Byte) : RingBuffer × Nat :=
  let n := p.length
  if n ≥ rb.size then
    -- Data larger than buffer; keep only the tail.
    ({ rb with buf := setRange rb.buf 0 (p.drop (n - rb.size)), pos := 0, full := true }, n)
  else
    let oldPos := rb.pos
    let first := rb.size - rb.pos
    let buf' :=
      if first ≥ n then setRange rb.buf rb.pos p
      else setRange (setRange rb.buf rb.pos (p.take first)) 0 (p.drop first)
    let pos' := (rb.pos + n) % rb.size
    ({ rb with buf := buf', pos := pos', full := rb.full || decide (pos' ≤ oldPos) }, n)

/-- RingBuffer.String from runner.go: contents in chronological order. -/
def RingBuffer.string (rb : RingBuffer) : List Byte :=
  if !rb.full then rb.buf.take rb.pos
  else rb.buf.drop rb.pos ++ rb.buf.take rb.pos

/-- Feed a sequence of writes into a ring buffer, discarding the reported counts. -/
def RingBuffer.writeAll (rb : RingBuffer) (ps : List (List Byte)) : RingBuffer :=
  ps.foldl (fun b p => (b.write p).1) rb

/-- CappedFileWriter from internal/runlog/manager.go.  The `file` field holds
the bytes persisted to the underlying os.File, under the assumption that every
underlying file write succeeds (the error path is explicitly swallowed by the
source anyway). -/
structure CappedFileWriter where
  file : List Byte
  maxBytes : Int
  written : Int
  truncated : Bool

/-- NewCappedFileWriter over a freshly created (empty) file. -/
def newCappedFileWriter (maxBytes : Int) : CappedFileWriter :=
  { file := [], maxBytes := maxBytes, written := 0, truncated := false }

/-- CappedFileWriter.Write from manager.go.  Returns the updated writer and
the reported count; the source reports `(len(p), nil)` on every path. -/
def CappedFileWriter.write (w : CappedFileWriter) (p : List Byte) :
    CappedFileWriter × Nat :=
  if w.maxBytes ≤ 0 then ({ w with truncated := true }, p.length)
  else
    let remaining := w.maxBytes - w.written
    if remaining ≤ 0 then ({ w with truncated := true }, p.length)
    else
      let toWrite := if (p.length : Int) > remaining then p.take remaining.toNat else p
      let truncated' := w.truncated || decide ((p.length : Int) > remaining)
      -- underlying file write assumed successful: n = toWrite.length, err = nil
      ({ w with file := w.file ++ toWrite,
                written := w.written + toWrite.length,
                truncated := truncated' }, p.length)

/-- Feed a sequence of writes into a capped writer. -/
def CappedFileWriter.writeAll (w : CappedFileWriter) (ps : List (List Byte)) :
    CappedFileWriter :=
  ps.foldl (fun b p => (b.write p).1) w

/-! ### Run store (internal/store/store.go and internal/store/migrate.go)

Time instants are natural numbers (0 plays the role of Go's zero time;
RFC3339 formatting and parsing compose to the identity and are elided). -/

/-- store.Run from internal/store/store.go. -/
structure Run where
  id : String
  jobName : String
  status : String
  exitCode : Int
  startedAt : Nat
  finishedAt : Option Nat
  durationMs : Int
  stdoutTail : String
  stderrTail : String
  errorMsg : String
  trigger : String
  llmAnalysis : String
  llmTokensUsed : Int
  createdAt : Nat
deriving DecidableEq, Repr

/-- One row of the `runs` table as created by migrate.go; nullable columns
are Options, mirroring the NULLs produced by nullString / nullInt64 /
formatTimePtr in the source. -/
structure RunRow where
  row_id : String
  job_name : String
  status : String
  exit_code : Int
  started_at : Nat
  finished_at : Option Nat
  duration_ms : Int
  stdout_tail : Option String
  stderr_tail : Option String
  error_msg : Option String
  trigger_type : String
  llm_analysis : Option String
  llm_tokens_used : Option Int
  created_at : Nat
deriving DecidableEq, Repr

/-- nullString from migrate.go: the empty string is stored as NULL. -/
def nullString (s : String) : Option String :=
  if s = "" then none else some s

/-- nullInt64 from migrate.go: zero is stored as NULL. -/
def nullInt64 (v : Int) : Option Int :=
  if v = 0 then none else some v

/-- The VALUES tuple of RecordRun's INSERT, as a row. -/
def insertRow (run : Run) : RunRow :=
  { row_id := run.id
    job_name := run.jobName
    status := run.status
    exit_code := run.exitCode
    started_at := run.startedAt
    finished_at := run.finishedAt
    duration_ms := run.durationMs
    stdout_tail := nullString run.stdoutTail
    stderr_tail := nullString run.stderrTail
    error_msg := nullString run.errorMsg
    trigger_type := run.trigger
    llm_analysis := nullString run.llmAnalysis
    llm_tokens_used := nullInt64 run.llmTokensUsed
    created_at := run.createdAt }

/-- The ON CONFLICT(id) DO UPDATE SET clause of RecordRun: only the mutable
finalisation fields are overwritten with the excluded (new) values. -/
def upsertUpdate (old : RunRow) (excluded : RunRow) : RunRow :=
  { old with
    status := excluded.status
    exit_code := excluded.exit_code
    finished_at := excluded.finished_at
    duration_ms := excluded.duration_ms
    stdout_tail := excluded.stdout_tail
    stderr_tail := excluded.stderr_tail
    error_msg := excluded.error_msg
    llm_analysis := excluded.llm_analysis
    llm_tokens_used := excluded.llm_tokens_used }

/-- SQLiteStore.RecordRun from migrate.go.  `now` models time.Now().UTC()
and `newID` models store.NewRunID(); the function also returns the Run with
the in-place mutations Go applies through the pointer (ID and CreatedAt). -/
def recordRun (db : List RunRow) (run : Run) (now : Nat) (newID : String) :
    List RunRow × Run :=
  let run := if run.id = "" then { run with id := newID } else run
  let run := if run.createdAt = 0 then { run with createdAt := now } else run
  let excluded := insertRow run
  if db.any (fun r => r.row_id = run.id) then
    (db.map (fun r => if r.row_id = run.id then upsertUpdate r excluded else r), run)
  else
    (db ++ [excluded], run)

/-- scanRun from migrate.go: NULL columns scan back to Go zero values. -/
def scanRun (r : RunRow) : Run :=
  { id := r.row_id
    jobName := r.job_name
    status := r.status
    exitCode := r.exit_code
    startedAt := r.started_at
    finishedAt := r.finished_at
    durationMs := r.duration_ms
    stdoutTail := (r.stdout_tail).getD ""
    stderrTail := (r.stderr_tail).getD ""
    errorMsg := (r.error_msg).getD ""
    trigger := r.trigger_type
    llmAnalysis := (r.llm_analysis).getD ""
    llmTokensUsed := (r.llm_tokens_used).getD 0
    createdAt := r.created_at }

/-- SQLiteStore.GetRun from migrate.go: SELECT ... WHERE id = ?; sql.ErrNoRows
becomes `none`. -/
def getRun (db : List RunRow) (id : String) : Option Run :=
  (db.find? (fun r => r.row_id = id)).map scanRun

/-- store.ListOpts from store.go. -/
structure ListOpts where
  jobName : String
  limit : Int
  offsetArg : Int
deriving Repr

/-- ORDER BY started_at DESC: any sorted permutation is a faithful model
(SQLite does not promise a stable order among equal keys). -/
def sortByStartedAtDesc (rows : List RunRow) : List RunRow :=
  rows.mergeSort (fun a b => b.started_at ≤ a.started_at)

/-- SQLiteStore.ListRuns from migrate.go: optional job filter, sort
descending, then LIMIT only when limit > 0 and OFFSET only when offset > 0.
The Errors it can return all come from the database driver, which the model
assumes healthy, so the result is always ok. -/
def listRuns (db : List RunRow) (opts : ListOpts) : Except String (List Run) :=
  let rows := if opts.jobName ≠ "" then
      db.filter (fun r => r.job_name = opts.jobName)
    else db
  let rows := sortByStartedAtDesc rows
  let rows := if opts.offsetArg > 0 then rows.drop opts.offsetArg.toNat else rows
  let rows := if opts.limit > 0 then rows.take opts.limit.toNat else rows
  .ok (rows.map scanRun)

/-! ### Job definitions (internal/config/config.go) -/

/-- config.Job, restricted to the fields the execution engine reads. -/
structure Job where
  name : String
  schedule : String
  command : String
  workingDir : String
  executor : String
  timeout : String
  env : List (String × String)
  enabled : Option Bool

/-- Job.IsEnabled from config.go: defaults to true when unset. -/
def Job.isEnabled (j : Job) : Bool :=
  match j.enabled with
  | none => true
  | some b => b

/-- Job.ParseTimeout from config.go, with Go's time.ParseDuration supplied
as an explicit parameter `parseDur` (durations in nanoseconds). -/
def Job.parseTimeout (parseDur : String → Except String Int) (j : Job) :
    Except String Int :=
  if j.timeout = "" then .ok 0 else parseDur j.timeout

/-! ### Orchestration (executeJob in cmd/cronbat/main.go)

The subprocess outcome, the two clock readings, and the fresh run id are
parameters of the model; log-file writers only contribute fields that never
reach the run record, so they are elided. -/

/-- plugin.RunResult, restricted to the fields executeJob copies into the
terminal run record. -/
structure RunResult where
  exitCode : Int
  stdout : String
  stderr : String
  durationMs : Int
  error : String

/-- realtime.Event, restricted to the fields executeJob publishes. -/
structure Event where
  type : String
  jobName : String
  runID : String
  status : String
  trigger : String
deriving DecidableEq, Repr

/-- Observable state touched by executeJob: the run store and the ordered
list of published events. -/
structure SysState where
  db : List RunRow
  events : List Event
  commandRan : Bool

/-- External inputs of one executeJob call. -/
structure ExecEnv where
  jobMap : List (String × Job)
  parseDur : String → Except String Int
  result : RunResult
  runID : String
  now1 : Nat
  now2 : Nat

/-- executeJob from cmd/cronbat/main.go lines 168-275, with the subprocess
run represented by `env.result` and `commandRan := true`. -/
def executeJob (env : ExecEnv) (jobName trigger : String) (st : SysState) :
    SysState :=
  match (env.jobMap.find? (fun kv => kv.1 = jobName)).map Prod.snd with
  | none => st
  | some j =>
    if !j.isEnabled then st
    else
      match j.parseTimeout env.parseDur with
      | .error _ => st
      | .ok _timeout =>
        let startedAt := env.now1
        let runID := env.runID
        let run : Run :=
          { id := runID, jobName := jobName, status := "running",
            exitCode := 0, startedAt := startedAt, finishedAt := none,
            durationMs := 0, stdoutTail := "", stderrTail := "",
            errorMsg := "", trigger := trigger, llmAnalysis := "",
            llmTokensUsed := 0, createdAt := 0 }
        let (db1, run) := recordRun st.db run env.now1 env.runID
        let ev1 := st.events ++
          [{ type := "run.started", jobName := jobName, runID := runID,
             status := "running", trigger := trigger }]
        let result := env.result
        let finishedAt := env.now2
        let status := if result.exitCode ≠ 0 || result.error ≠ "" then "failure" else "success"
        let run :=
          { run with
            status := status
            exitCode := result.exitCode
            finishedAt := some finishedAt
            durationMs := result.durationMs
            stdoutTail := result.stdout
            stderrTail := result.stderr
            errorMsg := result.error }
        let (db2, _) := recordRun db1 run env.now2 env.runID
        { db := db2
          events := ev1 ++
            [{ type := "run.completed", jobName := jobName, runID := runID,
               status := status, trigger := trigger }]
          commandRan := true }

/-! ### Subprocess environment (internal/runner/env.go) -/

/-- Split a Go "k=v" environment entry at the first '='.  BuildEnv's inner
loop scans for the first '=' byte; entries without one contribute nothing. -/
def splitEnvEntry : List Char → Option (List Char × List Char)
  | [] => none
  | c :: rest =>
    if c = '=' then some ([], rest)
    else (splitEnvEntry rest).map (fun kv => (c :: kv.1, kv.2))

/-- Go map assignment m[k] = v on a unique-key association list. -/
def envSet (m : List (String × String)) (k v : String) : List (String × String) :=
  if m.any (fun kv => kv.1 = k) then
    m.map (fun kv => if kv.1 = k then (k, v) else kv)
  else m ++ [(k, v)]

/-- Go map read m[k] on a unique-key association list. -/
def envLookup (m : List (String × String)) (k : String) : Option String :=
  (m.find? (fun kv => kv.1 = k)).map Prod.snd

/-- plugin.JobContext, restricted to the fields BuildEnv reads. -/
structure JobContext where
  jobName : String
  trigger : String
  env : List (String × String)

/-- BuildEnv from internal/runner/env.go, with os.Environ() supplied as
`procEnv`.  The result is the environment map; the Go conversion of the map
to a "k=v" slice iterates in unspecified map order and is elided, the map
content being the observable part. -/
def buildEnv (procEnv : List String) (base : List (String × String))
    (job : JobContext) : List (String × String) :=
  let m : List (String × String) := procEnv.foldl (fun m e =>
    match splitEnvEntry e.toList with
    | some kv => envSet m (String.mk kv.1) (String.mk kv.2)
    | none => m) []
  let m := base.foldl (fun m kv => envSet m kv.1 kv.2) m
  let m := job.env.foldl (fun m kv => envSet m kv.1 kv.2) m
  let m := envSet m "PICOCRON_JOB_NAME" job.jobName
  envSet m "PICOCRON_TRIGGER" job.trigger

/-! ### Scheduler queue (internal/scheduler, Go container/heap)

Instants are naturals; a cron.Schedule is modelled as its Next function,
mapping a reference instant to the next fire instant. -/

/-- entry from the scheduler source. -/
structure entry where
  jobName : String
  schedule : Nat → Nat
  nextRun : Nat

/-- entryHeap.Less: `h[i].nextRun.Before(h[j].nextRun)` — the comparison is
on nextRun only. -/
def entryHeapLess (a b : entry) : Bool :=
  decide (a.nextRun < b.nextRun)

/-- Go's h.Swap(i, j) on a list; out-of-range indices leave the list
unchanged (Go would panic, and every use below is in range). -/
def swapL {α : Type} (l : List α) (i j : Nat) : List α :=
  match l.get? i, l.get? j with
  | some a, some b => (l.set i b).set j a
  | _, _ => l

/-- The up-sift loop of container/heap.up. -/
def siftUp {α : Type} (less : α → α → Bool) (l : List α) (j : Nat) : List α :=
  let i := (j - 1) / 2
  if _h : i = j then l
  else
    match l.get? j, l.get? i with
    | some aj, some ai => if less aj ai then siftUp less (swapL l i j) i else l
    | _, _ => l
termination_by j
decreasing_by simp_wf; omega

/-- Choice of the smaller child in container/heap.down. -/
def pickChild {α : Type} (less : α → α → Bool) (l : List α) (j1 n : Nat) : Nat :=
  if j1 + 1 < n then
    match l.get? (j1 + 1), l.get? j1 with
    | some a2, some a1 => if less a2 a1 then j1 + 1 else j1
    | _, _ => j1
  else j1

theorem pickChild_lt {α : Type} (less : α → α → Bool) (l : List α) {j1 n : Nat}
    (h : j1 < n) : pickChild less l j1 n < n := by
  unfold pickChild
  split
  · split <;> first | split <;> omega | omega
  · omega

theorem pickChild_gt {α : Type} (less : α → α → Bool) (l : List α) (j1 n : Nat) :
    j1 ≤ pickChild less l j1 n := by
  unfold pickChild
  split
  · split <;> first | split <;> omega | omega
  · omega

/-- The down-sift loop of container/heap.down; returns the final index
(Go's down returns `i > i0`, recoverable from this). -/
def siftDownAux {α : Type} (less : α → α → Bool) (l : List α) (i n : Nat) :
    List α × Nat :=
  let j1 := 2 * i + 1
  if _h1 : j1 ≥ n then (l, i)
  else
    let j := pickChild less l j1 n
    match l.get? j, l.get? i with
    | some aj, some ai =>
      if less aj ai then siftDownAux less (swapL l i j) j n else (l, i)
    | _, _ => (l, i)
termination_by n - i
decreasing_by
  have h2 := pickChild_gt less l (2 * i + 1) n
  simp_wf; omega

/-- container/heap.Push specialised to entryHeap.Push (append) and up. -/
def heapPush {α : Type} (less : α → α → Bool) (l : List α) (x : α) : List α :=
  siftUp less (l ++ [x]) l.length

/-- container/heap.Pop: swap head with last, down-sift, then entryHeap.Pop
removes and returns the last element. -/
def heapPop {α : Type} (less : α → α → Bool) (l : List α) : List α × Option α :=
  let n := l.length - 1
  let l1 := swapL l 0 n
  let l2 := (siftDownAux less l1 0 n).1
  (l2.take n, l2.get? n)

/-- container/heap.Remove. -/
def heapRemove {α : Type} (less : α → α → Bool) (l : List α) (i : Nat) :
    List α × Option α :=
  let n := l.length - 1
  let l1 :=
    if n ≠ i then
      let la := swapL l i n
      let lb := siftDownAux less la i n
      if lb.2 > i then lb.1 else siftUp less lb.1 i
    else l
  (l1.take n, l1.get? n)

/-- Scheduler.removeLockedByName: remove the first entry matching name. -/
def removeLockedByName (h : List entry) (name : String) : List entry :=
  match h.findIdx? (fun e => e.jobName = name) with
  | some i => (heapRemove entryHeapLess h i).1
  | none => h

/-- Scheduler.AddJob: remove any existing entry with the name, then push an
entry whose nextRun is NextTime(schedule, now) = schedule now.  (The timer
reset does not touch the heap.) -/
def addJob (h : List entry) (name : String) (schedule : Nat → Nat) (now : Nat) :
    List entry :=
  let h := removeLockedByName h name
  heapPush entryHeapLess h { jobName := name, schedule := schedule, nextRun := schedule now }

/-- Scheduler.RemoveJob: removeLockedByName plus a timer reset that leaves
the heap untouched. -/
def removeJob (h : List entry) (name : String) : List entry :=
  removeLockedByName h name

/-- The scheduler run loop's timer branch, iterated while the head is due:
pop the head, record the fire, recompute its nextRun from `now`, re-push.
`fuel` bounds the number of loop iterations considered. -/
def runTicks : Nat → List entry → Nat → List String × List entry
  | 0, h, _ => ([], h)
  | fuel + 1, h, now =>
    match h.head? with
    | none => ([], h)
    | some e0 =>
      if e0.nextRun ≤ now then
        let h1 := (heapPop entryHeapLess h).1
        let e' := { e0 with nextRun := e0.schedule now }
        let h2 := heapPush entryHeapLess h1 e'
        let rest := runTicks fuel h2 now
        (e0.jobName :: rest.1, rest.2)
      else ([], h)

/-- The lifetime state of the scheduler goroutine visible to Stop: whether
the done channel has been closed.  Go's close on an already-closed channel
panics with "close of closed channel"; a panic is an error value here. -/
structure SchedulerLifecycle where
  doneClosed : Bool
deriving DecidableEq, Repr

/-- NewScheduler's lifecycle state: done open. -/
def newSchedulerLifecycle : SchedulerLifecycle :=
  { doneClosed := false }

/-- Scheduler.Stop: `close(s.done); s.wg.Wait()`.  The close panics when
done is already closed; otherwise the goroutine observes done and exits,
and Wait returns. -/
def SchedulerLifecycle.stop (s : SchedulerLifecycle) :
    Except String SchedulerLifecycle :=
  if s.doneClosed then .error "close of closed channel"
  else .ok { doneClosed := true }

/-! ### Helper lemmas about the run store -/

/-- In-place normalisation RecordRun applies to the Run through the pointer,
for a run that already carries a non-empty id. -/
def runWithCreated (r : Run) (now : Nat) : Run :=
  if r.createdAt = 0 then { r with createdAt := now } else r

theorem recordRun_fresh (db : List RunRow) (r : Run) (now : Nat) (nid : String)
    (hid : r.id ≠ "") (hfresh : ∀ row ∈ db, row.row_id ≠ r.id) :
    recordRun db r now nid =
      (db ++ [insertRow (runWithCreated r now)], runWithCreated r now) := by
  have hany : db.any (fun row => row.row_id = (runWithCreated r now).id) = false := by
    simp only [List.any_eq_false, decide_eq_true_eq]
    intro row hrow
    have := hfresh row hrow
    unfold runWithCreated
    split <;> simpa using this
  have hidW : (runWithCreated r now).id = r.id := by
    unfold runWithCreated; split <;> rfl
  unfold recordRun
  rw [if_neg hid]
  unfold runWithCreated
  split <;> simp_all [runWithCreated]

theorem recordRun_conflict (db : List RunRow) (r : Run) (now : Nat) (nid : String)
    (hid : r.id ≠ "") (hmem : db.any (fun row => row.row_id = r.id) = true) :
    (recordRun db r now nid).1 =
      db.map (fun row =>
        if row.row_id = r.id then upsertUpdate row (insertRow (runWithCreated r now))
        else row) := by
  have hidW : (runWithCreated r now).id = r.id := by
    unfold runWithCreated; split <;> rfl
  unfold recordRun
  rw [if_neg hid]
  unfold runWithCreated
  split <;> simp_all [runWithCreated]

theorem getRun_insert_update (db0 : List RunRow) (row1 ex2 : RunRow) (i : String)
    (hrow : row1.row_id = i) (hfresh : ∀ row ∈ db0, row.row_id ≠ i) :
    getRun ((db0 ++ [row1]).map (fun row =>
        if row.row_id = i then upsertUpdate row ex2 else row)) i =
      some (scanRun (upsertUpdate row1 ex2)) := by
  unfold getRun
  rw [List.map_append, List.find?_append]
  have h1 : (db0.map (fun row =>
      if row.row_id = i then upsertUpdate row ex2 else row)).find?
        (fun r => r.row_id = i) = none := by
    rw [List.find?_eq_none]
    intro x hx
    rw [List.mem_map] at hx
    obtain ⟨row, hrowmem, hxeq⟩ := hx
    have hne := hfresh row hrowmem
    rw [if_neg hne] at hxeq
    subst hxeq
    simpa using hne
  rw [h1]
  simp [upsertUpdate, hrow]

theorem runWithCreated_id (r : Run) (now : Nat) :
    (runWithCreated r now).id = r.id := by
  unfold runWithCreated; split <;> rfl

theorem upsertUpdate_insert_runWithCreated (row : RunRow) (r : Run) (now : Nat) :
    upsertUpdate row (insertRow (runWithCreated r now)) =
      upsertUpdate row (insertRow r) := by
  unfold runWithCreated; split <;> rfl

theorem nullString_getD (s : String) : (nullString s).getD "" = s := by
  unfold nullString; split <;> simp_all

theorem nullInt64_getD (v : Int) : (nullInt64 v).getD 0 = v := by
  unfold nullInt64; split <;> simp_all

/-- C4: after record_run of a running record and then record_run of a
terminal record with the same id, get_run returns the terminal record's
finalisation fields while id, job_name, started_at, trigger_type and
created_at keep the values written by the first insert. -/
theorem claim_C4_store_upsert (db0 : List RunRow) (r1 r2 : Run)
    (now1 now2 : Nat) (nid1 nid2 : String) (i : String)
    (hid1 : r1.id = i) (hid2 : r2.id = i) (hne : i ≠ "")
    (hfresh : ∀ row ∈ db0, row.row_id ≠ i)
    (hrunning : r1.status = "running")
    (hterminal : r2.status = "success" ∨ r2.status = "failure") :
    getRun (recordRun (recordRun db0 r1 now1 nid1).1 r2 now2 nid2).1 i =
      some { id := i
             jobName := r1.jobName
             status := r2.status
             exitCode := r2.exitCode
             startedAt := r1.startedAt
             finishedAt := r2.finishedAt
             durationMs := r2.durationMs
             stdoutTail := r2.stdoutTail
             stderrTail := r2.stderrTail
             errorMsg := r2.errorMsg
             trigger := r1.trigger
             llmAnalysis := r2.llmAnalysis
             llmTokensUsed := r2.llmTokensUsed
             createdAt := if r1.createdAt = 0 then now1 else r1.createdAt } := by
  have h1 : recordRun db0 r1 now1 nid1 =
      (db0 ++ [insertRow (runWithCreated r1 now1)], runWithCreated r1 now1) :=
    recordRun_fresh db0 r1 now1 nid1 (hid1 ▸ hne) (by simpa [hid1] using hfresh)
  have hrow1 : (insertRow (runWithCreated r1 now1)).row_id = i := by
    unfold runWithCreated insertRow
    split <;> simpa using hid1
  have hmem : ((db0 ++ [insertRow (runWithCreated r1 now1)]).any
      (fun row => row.row_id = r2.id)) = true := by
    rw [List.any_append]
    simp [hrow1, hid2]
  rw [h1]
  rw [recordRun_conflict _ r2 now2 nid2 (hid2 ▸ hne) hmem]
  rw [hid2] at *
  rw [getRun_insert_update db0 _ _ i hrow1 hfresh]
  unfold scanRun upsertUpdate insertRow runWithCreated
  by_cases h1c : r1.createdAt = 0 <;> by_cases h2c : r2.createdAt = 0 <;>
    simp_all [nullString_getD, nullInt64_getD]

/-- Witness for C4 at a concrete pair of records. -/
theorem claim_C4_store_upsert_witness :
    getRun (recordRun (recordRun []
        { id := "r1", jobName := "j", status := "running", exitCode := 0,
          startedAt := 10, finishedAt := none, durationMs := 0,
          stdoutTail := "", stderrTail := "", errorMsg := "",
          trigger := "manual", llmAnalysis := "", llmTokensUsed := 0,
          createdAt := 0 } 10 "n1").1
        { id := "r1", jobName := "j", status := "success", exitCode := 0,
          startedAt := 10, finishedAt := some 12, durationMs := 2000,
          stdoutTail := "hi", stderrTail := "", errorMsg := "",
          trigger := "manual", llmAnalysis := "", llmTokensUsed := 0,
          createdAt := 10 } 12 "n2").1 "r1" =
      some { id := "r1", jobName := "j", status := "success", exitCode := 0,
             startedAt := 10, finishedAt := some 12, durationMs := 2000,
             stdoutTail := "hi", stderrTail := "", errorMsg := "",
             trigger := "manual", llmAnalysis := "", llmTokensUsed := 0,
             createdAt := 10 } := by
  have h := claim_C4_store_upsert []
    { id := "r1", jobName := "j", status := "running", exitCode := 0,
      startedAt := 10, finishedAt := none, durationMs := 0,
      stdoutTail := "", stderrTail := "", errorMsg := "",
      trigger := "manual", llmAnalysis := "", llmTokensUsed := 0,
      createdAt := 0 }
    { id := "r1", jobName := "j", status := "success", exitCode := 0,
      startedAt := 10, finishedAt := some 12, durationMs := 2000,
      stdoutTail := "hi", stderrTail := "", errorMsg := "",
      trigger := "manual", llmAnalysis := "", llmTokensUsed := 0,
      createdAt := 10 } 10 12 "n1" "n2" "r1" rfl rfl (by decide)
    (by intro row h; cases h) rfl (Or.inl rfl)
  simpa using h

/-- C8: for every completed job execution, the terminal run record's status
is success iff exit_code = 0 and error = ""; otherwise failure, and
finished_at, duration_ms, exit_code, the output tails and error_msg are
filled in before the terminal upsert (hence visible through get_run). -/
theorem claim_C8_terminal_record (env : ExecEnv) (jobName trigger : String)
    (st : SysState) (j : Job) (d : Int)
    (hfind : (env.jobMap.find? (fun kv => kv.1 = jobName)).map Prod.snd = some j)
    (hen : j.isEnabled = true)
    (hok : j.parseTimeout env.parseDur = .ok d)
    (hid : env.runID ≠ "")
    (hfresh : ∀ row ∈ st.db, row.row_id ≠ env.runID) :
    ∃ g, getRun (executeJob env jobName trigger st).db env.runID = some g ∧
      (g.status = "success" ↔ (env.result.exitCode = 0 ∧ env.result.error = "")) ∧
      (g.status = "success" ∨ g.status = "failure") ∧
      g.finishedAt = some env.now2 ∧
      g.durationMs = env.result.durationMs ∧
      g.exitCode = env.result.exitCode ∧
      g.stdoutTail = env.result.stdout ∧
      g.stderrTail = env.result.stderr ∧
      g.errorMsg = env.result.error := by
  have hrun1 : ∃ run1 : Run, run1 =
      { id := env.runID, jobName := jobName, status := "running",
        exitCode := 0, startedAt := env.now1, finishedAt := none,
        durationMs := 0, stdoutTail := "", stderrTail := "",
        errorMsg := "", trigger := trigger, llmAnalysis := "",
        llmTokensUsed := 0, createdAt := 0 } := ⟨_, rfl⟩
  obtain ⟨run1, hrun1⟩ := hrun1
  have h1 : recordRun st.db run1 env.now1 env.runID =
      (st.db ++ [insertRow (runWithCreated run1 env.now1)],
       runWithCreated run1 env.now1) :=
    recordRun_fresh st.db run1 env.now1 env.runID (by rw [hrun1]; exact hid)
      (by rw [hrun1]; exact hfresh)
  unfold executeJob
  rw [hfind]
  simp only [hen, Bool.not_true, Bool.false_eq_true, if_false, hok, ← hrun1, h1]
  have hrw : runWithCreated run1 env.now1 = { run1 with createdAt := env.now1 } := by
    rw [hrun1]; rfl
  rw [hrw]
  simp only [hrun1]
  set row1 : RunRow := insertRow
    { id := env.runID, jobName := jobName, status := "running", exitCode := 0,
      startedAt := env.now1, finishedAt := none, durationMs := 0, stdoutTail := "",
      stderrTail := "", errorMsg := "", trigger := trigger, llmAnalysis := "",
      llmTokensUsed := 0, createdAt := env.now1 } with hrow1
  set run2 : Run :=
    { id := env.runID, jobName := jobName,
      status := if (decide (env.result.exitCode ≠ 0) || decide (env.result.error ≠ "")) = true
        then "failure" else "success",
      exitCode := env.result.exitCode, startedAt := env.now1,
      finishedAt := some env.now2, durationMs := env.result.durationMs,
      stdoutTail := env.result.stdout, stderrTail := env.result.stderr,
      errorMsg := env.result.error, trigger := trigger,
      llmAnalysis := "", llmTokensUsed := 0, createdAt := env.now1 } with hrun2
  have hid2 : run2.id ≠ "" := by rw [hrun2]; exact hid
  have hmem2 : ((st.db ++ [row1]).any (fun row => row.row_id = run2.id)) = true := by
    rw [List.any_append]
    simp [hrow1, hrun2, insertRow]
  rw [recordRun_conflict _ _ env.now2 env.runID hid2 hmem2]
  simp only [upsertUpdate_insert_runWithCreated]
  have hrowid : row1.row_id = env.runID := by rw [hrow1]; rfl
  simp only [hrun2]
  rw [getRun_insert_update st.db row1 _ env.runID hrowid hfresh]
  refine ⟨_, rfl, ?_⟩
  rw [hrow1]
  by_cases hec : env.result.exitCode = 0 <;> by_cases her : env.result.error = "" <;>
    simp [scanRun, upsertUpdate, insertRow, nullString_getD, nullInt64_getD, hec, her]

/-- The job used by the C8 witness. -/
def c8Job : Job :=
  { name := "echo", schedule := "* * * * *", command := "echo hi",
    workingDir := "", executor := "shell", timeout := "", env := [],
    enabled := none }

def c8Env : ExecEnv :=
  { jobMap := [("echo", c8Job)]
    parseDur := fun _ => .error "unused"
    result := { exitCode := 0, stdout := "hi", stderr := "", durationMs := 5, error := "" }
    runID := "r1"
    now1 := 10
    now2 := 11 }

/-- Witness for C8 at a concrete successful execution. -/
theorem claim_C8_terminal_record_witness :
    ∃ g, getRun (executeJob c8Env "echo" "schedule"
        { db := [], events := [], commandRan := false }).db "r1" = some g ∧
      (g.status = "success" ↔ (c8Env.result.exitCode = 0 ∧ c8Env.result.error = "")) ∧
      (g.status = "success" ∨ g.status = "failure") ∧
      g.finishedAt = some c8Env.now2 ∧
      g.durationMs = c8Env.result.durationMs ∧
      g.exitCode = c8Env.result.exitCode ∧
      g.stdoutTail = c8Env.result.stdout ∧
      g.stderrTail = c8Env.result.stderr ∧
      g.errorMsg = c8Env.result.error :=
  claim_C8_terminal_record c8Env "echo" "schedule"
    { db := [], events := [], commandRan := false }
    c8Job 0 rfl rfl rfl (by decide) (by intro row h; cases h)

/-- C10: when a job's timeout string is non-empty and fails to parse as a
duration, executing the job (under any trigger) returns immediately: no
running row is inserted, no run.started or run.completed event is
published, and the command is not run — the observable state is unchanged. -/
theorem claim_C10_invalid_timeout (env : ExecEnv) (jobName trigger : String)
    (st : SysState) (j : Job) (e : String)
    (hfind : (env.jobMap.find? (fun kv => kv.1 = jobName)).map Prod.snd = some j)
    (hen : j.isEnabled = true)
    (hne : j.timeout ≠ "")
    (herr : env.parseDur j.timeout = .error e) :
    executeJob env jobName trigger st = st := by
  unfold executeJob
  rw [hfind]
  simp only [hen, Bool.not_true, Bool.false_eq_true, if_false]
  unfold Job.parseTimeout
  rw [if_neg hne, herr]

/-- The job used by the C10 witness: its timeout string does not parse. -/
def c10Job : Job :=
  { name := "bad", schedule := "* * * * *", command := "true",
    workingDir := "", executor := "shell", timeout := "soon", env := [],
    enabled := none }

def c10Env : ExecEnv :=
  { jobMap := [("bad", c10Job)]
    parseDur := fun _ => .error "time: invalid duration soon"
    result := { exitCode := 0, stdout := "", stderr := "", durationMs := 0, error := "" }
    runID := "r9"
    now1 := 1
    now2 := 2 }

theorem claim_C10_invalid_timeout_witness :
    executeJob c10Env "bad" "manual" { db := [], events := [], commandRan := false } =
      { db := [], events := [], commandRan := false } :=
  claim_C10_invalid_timeout c10Env "bad" "manual" _ c10Job
    "time: invalid duration soon" rfl rfl (by decide) rfl

/-- A sample persisted run row used by the C7 counterexample. -/
def c7Row : RunRow :=
  { row_id := "r1", job_name := "j", status := "success", exit_code := 0,
    started_at := 10, finished_at := some 11, duration_ms := 5,
    stdout_tail := none, stderr_tail := none, error_msg := none,
    trigger_type := "manual", llm_analysis := none, llm_tokens_used := none,
    created_at := 10 }

/-- C7 counterexample: list_runs with limit = -1 does not reject the request
with an InvalidArgument error; it returns the matching runs (the source only
checks `opts.Limit > 0` before appending a LIMIT clause). -/
theorem claim_C7_negative_limit_counterexample :
    listRuns [c7Row] { jobName := "", limit := -1, offsetArg := 0 } =
      .ok [scanRun c7Row] := by
  simp [listRuns, sortByStartedAtDesc, List.mergeSort]

/-- C7 amended: list_runs with limit ≤ 0 (zero or negative) returns all
matching runs, ordered by started_at descending; a negative limit is treated
exactly like zero rather than rejected. -/
theorem claim_C7_list_runs (db : List RunRow) (opts : ListOpts)
    (hlim : opts.limit ≤ 0) (hoff : opts.offsetArg ≤ 0) :
    ∃ rows : List RunRow,
      listRuns db opts = .ok (rows.map scanRun) ∧
      rows.Perm (if opts.jobName ≠ "" then
        db.filter (fun r => r.job_name = opts.jobName) else db) ∧
      rows.Pairwise (fun a b => b.started_at ≤ a.started_at) := by
  refine ⟨sortByStartedAtDesc (if opts.jobName ≠ "" then
    db.filter (fun r => r.job_name = opts.jobName) else db), ?_, ?_, ?_⟩
  · unfold listRuns
    have h1 : ¬ (opts.offsetArg > 0) := by omega
    have h2 : ¬ (opts.limit > 0) := by omega
    simp only [if_neg h1, if_neg h2]
  · exact List.mergeSort_perm _ _
  · have h := @List.sorted_mergeSort RunRow
      (fun a b : RunRow => decide (b.started_at ≤ a.started_at))
      (fun a b c hab hbc => by
        simp only [decide_eq_true_eq] at *; omega)
      (fun a b => by
        simp only [Bool.or_eq_true, decide_eq_true_eq]; omega)
      (if opts.jobName ≠ "" then
        db.filter (fun r => r.job_name = opts.jobName) else db)
    unfold sortByStartedAtDesc
    exact h.imp (fun hab => by simpa using hab)

/-- Witness for C7 at a concrete store and a negative limit. -/
theorem claim_C7_list_runs_witness :
    ∃ rows : List RunRow,
      listRuns [c7Row] { jobName := "", limit := -1, offsetArg := 0 } =
        .ok (rows.map scanRun) ∧
      rows.Perm (if ("" : String) ≠ "" then
        [c7Row].filter (fun r => r.job_name = "") else [c7Row]) ∧
      rows.Pairwise (fun a b => b.started_at ≤ a.started_at) :=
  claim_C7_list_runs [c7Row] { jobName := "", limit := -1, offsetArg := 0 }
    (by decide) (by decide)

/-- C1: the reserved environment variables the runner injects are
PICOCRON_JOB_NAME and PICOCRON_TRIGGER, not the CRONBAT_JOB_NAME and
CRONBAT_TRIGGER promised by the documentation; the overlay structure
(process env, then job env, then the reserved pair) is as described. -/
theorem claim_C1_reserved_env_vars :
    envLookup (buildEnv ["PATH=/bin"] []
      { jobName := "echo", trigger := "schedule", env := [("FOO", "bar")] })
      "PICOCRON_JOB_NAME" = some "echo" ∧
    envLookup (buildEnv ["PATH=/bin"] []
      { jobName := "echo", trigger := "schedule", env := [("FOO", "bar")] })
      "PICOCRON_TRIGGER" = some "schedule" ∧
    envLookup (buildEnv ["PATH=/bin"] []
      { jobName := "echo", trigger := "schedule", env := [("FOO", "bar")] })
      "CRONBAT_JOB_NAME" = none ∧
    envLookup (buildEnv ["PATH=/bin"] []
      { jobName := "echo", trigger := "schedule", env := [("FOO", "bar")] })
      "CRONBAT_TRIGGER" = none ∧
    envLookup (buildEnv ["PATH=/bin"] []
      { jobName := "echo", trigger := "schedule", env := [("FOO", "bar")] })
      "FOO" = some "bar" ∧
    envLookup (buildEnv ["PATH=/bin"] []
      { jobName := "echo", trigger := "schedule", env := [("FOO", "bar")] })
      "PATH" = some "/bin" :=
  ⟨rfl, rfl, rfl, rfl, rfl, rfl⟩

/-- C3 counterexample: calling stop twice does not succeed; the second
close of the done channel panics. -/
theorem claim_C3_stop_counterexample :
    newSchedulerLifecycle.stop.bind SchedulerLifecycle.stop =
      .error "close of closed channel" := rfl

/-- C3 amended: a first stop() on a running scheduler succeeds (closing done
and joining the goroutine), but stop is not idempotent — a second stop()
panics with a close of a closed channel. -/
theorem claim_C3_stop_not_idempotent (s : SchedulerLifecycle)
    (h : s.doneClosed = false) :
    s.stop = .ok { doneClosed := true } ∧
    SchedulerLifecycle.stop { doneClosed := true } =
      .error "close of closed channel" := by
  constructor
  · unfold SchedulerLifecycle.stop
    rw [h]
    simp
  · rfl

/-- Witness for C3 at the freshly created scheduler. -/
theorem claim_C3_stop_not_idempotent_witness :
    newSchedulerLifecycle.stop = .ok { doneClosed := true } ∧
    SchedulerLifecycle.stop { doneClosed := true } =
      .error "close of closed channel" :=
  claim_C3_stop_not_idempotent newSchedulerLifecycle rfl

/-! ### Capped writer correctness (C6) -/

/-- Invariant tying a capped writer to the byte stream written so far. -/
def cfwInv (w : CappedFileWriter) (B : List Byte) (C : Int) : Prop :=
  w.maxBytes = C ∧ w.written = min (B.length : Int) C ∧
  w.truncated = decide ((B.length : Int) > C) ∧ w.file = B.take C.toNat

theorem cfwInv_write (C : Int) (hC : 0 < C) (w : CappedFileWriter)
    (B p : List Byte) (hp : p ≠ []) (h : cfwInv w B C) :
    cfwInv (w.write p).1 (B ++ p) C := by
  obtain ⟨hmax, hwr, htr, hfile⟩ := h
  have hn : 0 < p.length := List.length_pos.mpr hp
  unfold CappedFileWriter.write
  rw [hmax, hwr, if_neg (by omega : ¬ C ≤ 0)]
  by_cases hLC : C ≤ (B.length : Int)
  · rw [if_pos (by omega : C - min (B.length : Int) C ≤ 0)]
    refine ⟨rfl, ?_, ?_, ?_⟩
    · show min (B.length : Int) C = _
      simp only [List.length_append]
      push_cast
      omega
    · show true = _
      symm
      rw [decide_eq_true_eq]
      simp only [List.length_append]
      push_cast
      omega
    · show w.file = _
      rw [hfile, List.take_append_of_le_length (by omega : C.toNat ≤ B.length)]
  · rw [if_neg (by omega : ¬ C - min (B.length : Int) C ≤ 0)]
    have hmin : min (B.length : Int) C = (B.length : Int) := by omega
    rw [hmin]
    by_cases hbig : (p.length : Int) > C - (B.length : Int)
    · rw [if_pos hbig]
      have hkn : (C - (B.length : Int)).toNat ≤ p.length := by omega
      refine ⟨rfl, ?_, ?_, ?_⟩
      · show (B.length : Int) + ((p.take (C - (B.length : Int)).toNat).length : Int) = _
        rw [List.length_take]
        have hmin2 : min (C - (B.length : Int)).toNat p.length =
            (C - (B.length : Int)).toNat := by omega
        rw [hmin2, List.length_append]
        push_cast
        omega
      · show (w.truncated || _) = _
        rw [htr, Bool.eq_iff_iff]
        simp only [Bool.or_eq_true, decide_eq_true_eq, List.length_append]
        push_cast
        omega
      · show w.file ++ _ = _
        have harg : (C - (B.length : Int)).toNat = C.toNat - B.length := by
          omega
        rw [hfile, List.take_of_length_le (by omega : B.length ≤ C.toNat),
          List.take_append_eq_append_take,
          List.take_of_length_le (by omega : B.length ≤ C.toNat), harg]
    · rw [if_neg hbig]
      refine ⟨rfl, ?_, ?_, ?_⟩
      · show (B.length : Int) + (p.length : Int) = _
        simp only [List.length_append]
        push_cast
        omega
      · show (w.truncated || _) = _
        rw [htr, Bool.eq_iff_iff]
        simp only [Bool.or_eq_true, decide_eq_true_eq, List.length_append]
        push_cast
        omega
      · show w.file ++ p = _
        rw [hfile, List.take_of_length_le (by omega : B.length ≤ C.toNat),
          List.take_of_length_le (by simp only [List.length_append]; omega :
            (B ++ p).length ≤ C.toNat)]

theorem cfwInv_writeAll (C : Int) (hC : 0 < C) (ps : List (List Byte))
    (hps : ∀ p ∈ ps, p ≠ []) (w : CappedFileWriter) (B : List Byte)
    (h : cfwInv w B C) : cfwInv (w.writeAll ps) (B ++ ps.flatten) C := by
  induction ps generalizing w B with
  | nil => simpa [CappedFileWriter.writeAll] using h
  | cons p ps ih =>
    have h1 := cfwInv_write C hC w B p (hps p (by simp)) h
    have h2 := ih (fun q hq => hps q (by simp [hq])) (w.write p).1 (B ++ p) h1
    simpa [CappedFileWriter.writeAll, List.append_assoc] using h2

/-- C6 counterexample: with cap C = 1, the write sequence "a" then "" has
total length L = 1 = C, yet the truncated flag is set — the zero-length
write arriving with the cap exactly reached marks the writer truncated even
though no byte was discarded. -/
theorem claim_C6_capped_counterexample :
    ((newCappedFileWriter 1).writeAll [[97], []]).truncated = true ∧
    ([[97], ([] : List Byte)].flatten.length = 1) ∧ ¬ ((1 : Int) > 1) :=
  ⟨rfl, rfl, by omega⟩

/-- C6 amended: for every sequence of non-empty writes with total length L
to a capped writer with cap C > 0 (underlying file writes assumed to
succeed), exactly min(L, C) bytes are persisted, every write reports success
for its full input length, and the truncated flag is set iff L > C. -/
theorem claim_C6_capped_writer (C : Int) (hC : 0 < C) (ps : List (List Byte))
    (hps : ∀ p ∈ ps, p ≠ []) :
    ((newCappedFileWriter C).writeAll ps).file.length =
      min ps.flatten.length C.toNat ∧
    ((newCappedFileWriter C).writeAll ps).written =
      min (ps.flatten.length : Int) C ∧
    (((newCappedFileWriter C).writeAll ps).truncated = true ↔
      (ps.flatten.length : Int) > C) ∧
    ∀ (w : CappedFileWriter) (p : List Byte), (w.write p).2 = p.length := by
  have h0 : cfwInv (newCappedFileWriter C) [] C := by
    refine ⟨rfl, ?_, ?_, ?_⟩
    · show (0 : Int) = _
      simp
      omega
    · show false = _
      have : ¬ ((((([] : List Byte).length : Nat)) : Int) > C) := by simp; omega
      simp [this]
      omega
    · show ([] : List Byte) = _
      simp
  have h := cfwInv_writeAll C hC ps hps (newCappedFileWriter C) [] h0
  simp only [List.nil_append] at h
  obtain ⟨hmax, hwr, htr, hfile⟩ := h
  refine ⟨?_, hwr, ?_, ?_⟩
  · rw [hfile, List.length_take]; omega
  · rw [htr]; simp
  · intro w p
    unfold CappedFileWriter.write
    dsimp only
    split
    · rfl
    · split <;> rfl

/-- Witness for C6 at cap 2 and writes "ab", "c". -/
theorem claim_C6_capped_writer_witness :
    ((newCappedFileWriter 2).writeAll [[97, 98], [99]]).file.length =
      min [[97, 98], [99]].flatten.length (2 : Int).toNat ∧
    ((newCappedFileWriter 2).writeAll [[97, 98], [99]]).written =
      min (([[97, 98], [99]].flatten.length : Nat) : Int) 2 ∧
    (((newCappedFileWriter 2).writeAll [[97, 98], [99]]).truncated = true ↔
      (([[97, 98], [99]].flatten.length : Nat) : Int) > 2) ∧
    ∀ (w : CappedFileWriter) (p : List Byte), (w.write p).2 = p.length :=
  claim_C6_capped_writer 2 (by omega) [[97, 98], [99]] (by decide)

/-! ### Ring buffer correctness (C5) -/

theorem setRange_fits (dst : List Byte) (off : Nat) (src : List Byte)
    (h : off + src.length ≤ dst.length) :
    setRange dst off src = dst.take off ++ src ++ dst.drop (off + src.length) := by
  unfold setRange
  dsimp only
  have hk : min (dst.length - off) src.length = src.length := by omega
  rw [hk, List.take_length]

theorem setRange_all (dst : List Byte) (src : List Byte)
    (h : src.length = dst.length) : setRange dst 0 src = src := by
  rw [setRange_fits dst 0 src (by omega)]
  simp [h, List.drop_length]

/-- Invariant tying a ring buffer to the byte stream written so far. -/
def rbInv (rb : RingBuffer) (B : List Byte) : Prop :=
  rb.buf.length = rb.size ∧ 0 < rb.size ∧
  (if rb.full = true then
    rb.pos < rb.size ∧ rb.size ≤ B.length ∧
      rb.buf.drop rb.pos ++ rb.buf.take rb.pos = B.drop (B.length - rb.size)
  else
    rb.pos = B.length ∧ B.length < rb.size ∧ rb.buf.take rb.pos = B)

theorem rbInv_write (rb : RingBuffer) (B p : List Byte) (hp : p ≠ [])
    (h : rbInv rb B) : rbInv (rb.write p).1 (B ++ p) := by
  obtain ⟨hlen, hsz, hrest⟩ := h
  have hn : 0 < p.length := List.length_pos.mpr hp
  have hq_lt : rb.pos < rb.size := by
    by_cases hfull : rb.full = true
    · rw [if_pos hfull] at hrest; exact hrest.1
    · rw [if_neg hfull] at hrest; omega
  have hds : rb.buf.drop rb.size = [] := by
    rw [← hlen]; exact List.drop_length rb.buf
  unfold RingBuffer.write
  by_cases hbig : p.length ≥ rb.size
  · rw [if_pos hbig]
    have hq : (p.drop (p.length - rb.size)).length = rb.size := by
      rw [List.length_drop]; omega
    have hbuf : setRange rb.buf 0 (p.drop (p.length - rb.size)) =
        p.drop (p.length - rb.size) := by
      rw [setRange_all _ _ (by rw [hq, hlen])]
    refine ⟨by rw [hbuf, hq], hsz, ?_⟩
    rw [if_pos rfl]
    refine ⟨hsz, by simp only [List.length_append]; omega, ?_⟩
    rw [hbuf]
    simp only [List.drop_zero, List.take_zero, List.append_nil]
    rw [show (B ++ p).length - rb.size = B.length + (p.length - rb.size) by
      simp only [List.length_append]; omega]
    rw [List.drop_append]
  · rw [if_neg hbig]
    dsimp only
    have hn_lt : p.length < rb.size := by omega
    by_cases hfit : rb.size - rb.pos ≥ p.length
    · -- the write fits before wrap-around
      rw [if_pos hfit]
      have hqn : rb.pos + p.length ≤ rb.size := by omega
      have hbuf : setRange rb.buf rb.pos p =
          rb.buf.take rb.pos ++ p ++ rb.buf.drop (rb.pos + p.length) :=
        setRange_fits _ _ _ (by omega)
      have hheadlen : (rb.buf.take rb.pos ++ p).length = rb.pos + p.length := by
        simp only [List.length_append, List.length_take]; omega
      have hlen' : (setRange rb.buf rb.pos p).length = rb.size := by
        rw [length_setRange _ _ _ (by omega), hlen]
      have htake : (setRange rb.buf rb.pos p).take (rb.pos + p.length) =
          rb.buf.take rb.pos ++ p := by
        rw [hbuf, List.take_left' hheadlen]
      have hdrop : (setRange rb.buf rb.pos p).drop (rb.pos + p.length) =
          rb.buf.drop (rb.pos + p.length) := by
        rw [hbuf, List.drop_left' hheadlen]
      by_cases heq : rb.pos + p.length = rb.size
      · -- the write fills the buffer exactly: wrap to 0 and mark full
        have hmod : (rb.pos + p.length) % rb.size = 0 := by
          rw [heq, Nat.mod_self]
        have hfull' : (rb.full || decide ((rb.pos + p.length) % rb.size ≤ rb.pos)) = true := by
          rw [hmod]
          simp
        refine ⟨hlen', hsz, ?_⟩
        rw [hfull']
        rw [if_pos rfl, hmod]
        have hcontents : setRange rb.buf rb.pos p = rb.buf.take rb.pos ++ p := by
          rw [hbuf, heq, hds, List.append_nil]
        by_cases hfull : rb.full = true
        · rw [if_pos hfull] at hrest
          obtain ⟨hq1, hq2, hcont⟩ := hrest
          refine ⟨hsz, by simp only [List.length_append]; omega, ?_⟩
          simp only [List.drop_zero, List.take_zero, List.append_nil]
          rw [hcontents]
          have hBdrop : B.drop (B.length - rb.pos) = rb.buf.take rb.pos := by
            have hsplit : B.length - rb.pos =
                (B.length - rb.size) + (rb.size - rb.pos) := by omega
            rw [hsplit, ← List.drop_drop, ← hcont,
              List.drop_left' (by rw [List.length_drop, hlen])]
          have hk : (B ++ p).length - rb.size = B.length - rb.pos := by
            simp only [List.length_append]; omega
          rw [hk, List.drop_append_eq_append_drop,
            show B.length - rb.pos - B.length = 0 by omega, List.drop_zero,
            hBdrop]
        · rw [if_neg hfull] at hrest
          obtain ⟨hq1, hq2, hcont⟩ := hrest
          refine ⟨hsz, by simp only [List.length_append]; omega, ?_⟩
          simp only [List.drop_zero, List.take_zero, List.append_nil]
          rw [hcontents, hcont,
            show (B ++ p).length - rb.size = 0 by
              simp only [List.length_append]; omega,
            List.drop_zero]
      · -- the write stays strictly inside the buffer
        have hlt : rb.pos + p.length < rb.size := by omega
        have hmod : (rb.pos + p.length) % rb.size = rb.pos + p.length :=
          Nat.mod_eq_of_lt hlt
        by_cases hfull : rb.full = true
        · rw [if_pos hfull] at hrest
          obtain ⟨hq1, hq2, hcont⟩ := hrest
          have hfull' : (rb.full || decide ((rb.pos + p.length) % rb.size ≤ rb.pos)) = true := by
            rw [hfull, Bool.true_or]
          refine ⟨hlen', hsz, ?_⟩
          rw [hfull']
          rw [if_pos rfl, hmod]
          refine ⟨hlt, by simp only [List.length_append]; omega, ?_⟩
          rw [htake, hdrop]
          have hBdrop : B.drop (B.length - rb.size + p.length) =
              rb.buf.drop (rb.pos + p.length) ++ rb.buf.take rb.pos := by
            rw [← List.drop_drop, ← hcont, List.drop_append_eq_append_drop,
              show p.length - (rb.buf.drop rb.pos).length = 0 by
                rw [List.length_drop, hlen]; omega,
              List.drop_zero, List.drop_drop]
          have hk : (B ++ p).length - rb.size = B.length - rb.size + p.length := by
            simp only [List.length_append]; omega
          rw [hk, List.drop_append_eq_append_drop,
            show B.length - rb.size + p.length - B.length = 0 by omega,
            List.drop_zero, hBdrop, List.append_assoc]
        · rw [if_neg hfull] at hrest
          obtain ⟨hq1, hq2, hcont⟩ := hrest
          have hfull' : (rb.full || decide ((rb.pos + p.length) % rb.size ≤ rb.pos)) = false := by
            rw [hmod]
            have hb : rb.full = false := by
              cases hf : rb.full
              · rfl
              · exact absurd hf hfull
            rw [hb, Bool.false_or, decide_eq_false (by omega : ¬ rb.pos + p.length ≤ rb.pos)]
          refine ⟨hlen', hsz, ?_⟩
          rw [hfull']
          rw [if_neg (by simp), hmod]
          refine ⟨by simp only [List.length_append]; omega,
            by simp only [List.length_append]; omega, ?_⟩
          rw [htake, hcont]
    · -- the write wraps around the end of the buffer
      rw [if_neg hfit]
      have hfirst_lt : rb.size - rb.pos < p.length := by omega
      have htfl : (p.take (rb.size - rb.pos)).length = rb.size - rb.pos := by
        rw [List.length_take]; omega
      have hinner : setRange rb.buf rb.pos (p.take (rb.size - rb.pos)) =
          rb.buf.take rb.pos ++ p.take (rb.size - rb.pos) := by
        rw [setRange_fits _ _ _ (by rw [htfl, hlen]; omega), htfl,
          show rb.pos + (rb.size - rb.pos) = rb.size from by omega,
          hds, List.append_nil]
      have hinnerlen : (rb.buf.take rb.pos ++ p.take (rb.size - rb.pos)).length
          = rb.size := by
        simp only [List.length_append, List.length_take]; omega
      have hdfl : (p.drop (rb.size - rb.pos)).length =
          p.length - (rb.size - rb.pos) := by
        rw [List.length_drop]
      have hbuf : setRange (setRange rb.buf rb.pos (p.take (rb.size - rb.pos)))
          0 (p.drop (rb.size - rb.pos)) =
          p.drop (rb.size - rb.pos) ++
            (rb.buf.take rb.pos ++ p.take (rb.size - rb.pos)).drop
              (p.length - (rb.size - rb.pos)) := by
        rw [hinner, setRange_fits _ _ _ (by rw [hdfl, hinnerlen]; omega), hdfl]
        simp only [List.take_zero, List.nil_append, Nat.zero_add]
      have hmod : (rb.pos + p.length) % rb.size = rb.pos + p.length - rb.size := by
        rw [Nat.mod_eq_sub_mod (by omega), Nat.mod_eq_of_lt (by omega)]
      have hm : p.length - (rb.size - rb.pos) = rb.pos + p.length - rb.size := by
        omega
      have hfull' : (rb.full || decide ((rb.pos + p.length) % rb.size ≤ rb.pos)) = true := by
        rw [hmod, decide_eq_true (by omega : rb.pos + p.length - rb.size ≤ rb.pos),
          Bool.or_true]
      have hlen' : (setRange (setRange rb.buf rb.pos (p.take (rb.size - rb.pos)))
          0 (p.drop (rb.size - rb.pos))).length = rb.size := by
        rw [hbuf]
        simp only [List.length_append, List.length_drop, hinnerlen, List.length_take]
        omega
      have hsB : rb.size ≤ B.length + p.length := by
        by_cases hfull : rb.full = true
        · rw [if_pos hfull] at hrest; omega
        · rw [if_neg hfull] at hrest; omega
      refine ⟨hlen', hsz, ?_⟩
      rw [hfull']
      rw [if_pos rfl, hmod]
      refine ⟨by show rb.pos + p.length - rb.size < rb.size; omega,
        by show rb.size ≤ (B ++ p).length; simp only [List.length_append]; omega, ?_⟩
      have hmlen : (p.drop (rb.size - rb.pos)).length = rb.pos + p.length - rb.size := by
        rw [hdfl, hm]
      have htake : (setRange (setRange rb.buf rb.pos (p.take (rb.size - rb.pos)))
          0 (p.drop (rb.size - rb.pos))).take (rb.pos + p.length - rb.size) =
          p.drop (rb.size - rb.pos) := by
        rw [hbuf, List.take_left' hmlen]
      have hdrop : (setRange (setRange rb.buf rb.pos (p.take (rb.size - rb.pos)))
          0 (p.drop (rb.size - rb.pos))).drop (rb.pos + p.length - rb.size) =
          (rb.buf.take rb.pos).drop (rb.pos + p.length - rb.size) ++
            p.take (rb.size - rb.pos) := by
        rw [hbuf, List.drop_left' hmlen, hm, List.drop_append_eq_append_drop,
          show rb.pos + p.length - rb.size - (rb.buf.take rb.pos).length = 0 from by
            rw [List.length_take]; omega,
          List.drop_zero]
      rw [htake, hdrop, List.append_assoc, List.take_append_drop]
      by_cases hfull : rb.full = true
      · rw [if_pos hfull] at hrest
        obtain ⟨hq1, hq2, hcont⟩ := hrest
        have hBdrop : B.drop (B.length - rb.size + p.length) =
            (rb.buf.take rb.pos).drop (rb.pos + p.length - rb.size) := by
          rw [← List.drop_drop, ← hcont, List.drop_append_eq_append_drop,
            List.drop_eq_nil_of_le (by rw [List.length_drop, hlen]; omega),
            List.nil_append,
            show p.length - (rb.buf.drop rb.pos).length =
              rb.pos + p.length - rb.size from by rw [List.length_drop, hlen]; omega]
        have hk : (B ++ p).length - rb.size = B.length - rb.size + p.length := by
          simp only [List.length_append]; omega
        rw [hk, List.drop_append_eq_append_drop,
          show B.length - rb.size + p.length - B.length = 0 from by omega,
          List.drop_zero, hBdrop]
      · rw [if_neg hfull] at hrest
        obtain ⟨hq1, hq2, hcont⟩ := hrest
        have hBdrop : B.drop (rb.pos + p.length - rb.size) =
            (rb.buf.take rb.pos).drop (rb.pos + p.length - rb.size) := by
          rw [← hcont]
        have hk : (B ++ p).length - rb.size = rb.pos + p.length - rb.size := by
          simp only [List.length_append]; omega
        rw [hk, List.drop_append_eq_append_drop,
          show rb.pos + p.length - rb.size - B.length = 0 from by omega,
          List.drop_zero, hBdrop]

theorem RingBuffer.write_size (rb : RingBuffer) (p : List Byte) :
    ((rb.write p).1).size = rb.size := by
  unfold RingBuffer.write
  dsimp only
  split <;> rfl

theorem RingBuffer.writeAll_size (ps : List (List Byte)) (rb : RingBuffer) :
    (rb.writeAll ps).size = rb.size := by
  induction ps generalizing rb with
  | nil => rfl
  | cons p ps ih =>
    show ((rb.write p).1.writeAll ps).size = rb.size
    rw [ih, RingBuffer.write_size]

theorem rbInv_writeAll (ps : List (List Byte)) (hps : ∀ p ∈ ps, p ≠ [])
    (rb : RingBuffer) (B : List Byte) (h : rbInv rb B) :
    rbInv (rb.writeAll ps) (B ++ ps.flatten) := by
  induction ps generalizing rb B with
  | nil => simpa [RingBuffer.writeAll] using h
  | cons p ps ih =>
    have h1 := rbInv_write rb B p (hps p (by simp)) h
    have h2 := ih (fun q hq => hps q (by simp [hq])) (rb.write p).1 (B ++ p) h1
    simpa [RingBuffer.writeAll, List.append_assoc] using h2

/-- C5 counterexample: with capacity N = 2 and the write sequence "a" then
"" (whose concatenation is the one-byte stream "a"), the buffer's contents
read back as a NUL byte followed by "a" — not the claimed most-recent bytes
of the stream.  The zero-length write makes `pos ≤ oldPos` hold and falsely
marks the buffer full. -/
theorem claim_C5_ring_counterexample :
    ((newRingBuffer 2).writeAll [[97], []]).string = [0, 97] ∧
    [[97], ([] : List Byte)].flatten.drop
      ([[97], ([] : List Byte)].flatten.length - 2) = [97] ∧
    ([0, 97] : List Byte) ≠ [97] :=
  ⟨rfl, rfl, by decide⟩

/-- C5 amended: for every sequence of non-empty writes whose concatenation
is a byte stream B of length L, a ring buffer of positive capacity N accepts
every write reporting full success (length written = length given, no error
path exists), and afterwards reading its contents in chronological order
yields exactly the most recent min(L, N) bytes, B drop (L - N). -/
theorem claim_C5_ring_buffer (N : Nat) (hN : 0 < N) (ps : List (List Byte))
    (hps : ∀ p ∈ ps, p ≠ []) :
    ((newRingBuffer N).writeAll ps).string =
      ps.flatten.drop (ps.flatten.length - N) ∧
    ∀ (rb : RingBuffer) (q : List Byte), (rb.write q).2 = q.length := by
  have h0 : rbInv (newRingBuffer N) [] := by
    refine ⟨by simp [newRingBuffer], hN, ?_⟩
    rw [if_neg (by simp [newRingBuffer])]
    exact ⟨rfl, hN, rfl⟩
  have h := rbInv_writeAll ps hps (newRingBuffer N) [] h0
  rw [List.nil_append] at h
  have hsize : ((newRingBuffer N).writeAll ps).size = N :=
    RingBuffer.writeAll_size ps (newRingBuffer N)
  obtain ⟨hlen, hsz, hrest⟩ := h
  constructor
  · unfold RingBuffer.string
    by_cases hfull : ((newRingBuffer N).writeAll ps).full = true
    · rw [if_pos hfull] at hrest
      rw [hfull]
      simp only [Bool.not_true, Bool.false_eq_true, if_false]
      rw [hrest.2.2, hsize]
    · rw [if_neg hfull] at hrest
      have hb : ((newRingBuffer N).writeAll ps).full = false := by
        cases hf : ((newRingBuffer N).writeAll ps).full
        · rfl
        · exact absurd hf hfull
      rw [hb]
      simp only [Bool.not_false, if_true]
      rw [hrest.2.2,
        show ps.flatten.length - N = 0 from by
          have := hrest.2.1; omega,
        List.drop_zero]
  · intro rb q
    unfold RingBuffer.write
    dsimp only
    split <;> rfl

/-- Witness for C5 at capacity 3 and writes "a", "bc", "de". -/
theorem claim_C5_ring_buffer_witness :
    ((newRingBuffer 3).writeAll [[97], [98, 99], [100, 101]]).string =
      [[97], [98, 99], [100, 101]].flatten.drop
        ([[97], [98, 99], [100, 101]].flatten.length - 3) ∧
    ∀ (rb : RingBuffer) (q : List Byte), (rb.write q).2 = q.length :=
  claim_C5_ring_buffer 3 (by omega) [[97], [98, 99], [100, 101]] (by decide)

/-! ### Heap algebra: the container/heap operations permute the entries -/

theorem cons_set_perm {α : Type} (x b : α) :
    ∀ (xs : List α) (j : Nat), xs.get? j = some b →
      (b :: xs.set j x).Perm (x :: xs) := by
  intro xs
  induction xs with
  | nil => intro j h; simp at h
  | cons y ys ih =>
    intro j h
    cases j with
    | zero =>
      rw [List.get?_cons_zero] at h
      injection h with h
      subst h
      exact List.Perm.swap x y ys
    | succ j =>
      rw [List.get?_cons_succ] at h
      have h1 : (b :: y :: ys.set j x).Perm (y :: b :: ys.set j x) :=
        List.Perm.swap y b _
      have h2 : (y :: b :: ys.set j x).Perm (y :: (x :: ys)) :=
        (ih j h).cons y
      have h3 : (y :: x :: ys).Perm (x :: y :: ys) := List.Perm.swap x y ys
      exact (h1.trans h2).trans h3

theorem set_set_perm {α : Type} :
    ∀ (l : List α) (i j : Nat) (a b : α), l.get? i = some a →
      l.get? j = some b → ((l.set i b).set j a).Perm l := by
  intro l
  induction l with
  | nil => intro i j a b h1 _; simp at h1
  | cons y ys ih =>
    intro i j a b h1 h2
    cases i with
    | zero =>
      rw [List.get?_cons_zero] at h1
      injection h1 with h1
      cases j with
      | zero =>
        rw [List.get?_cons_zero] at h2
        injection h2 with h2
        subst h1
        subst h2
        exact List.Perm.refl _
      | succ j =>
        rw [List.get?_cons_succ] at h2
        subst h1
        exact cons_set_perm y b ys j h2
    | succ i =>
      rw [List.get?_cons_succ] at h1
      cases j with
      | zero =>
        rw [List.get?_cons_zero] at h2
        injection h2 with h2
        subst h2
        exact cons_set_perm y a ys i h1
      | succ j =>
        rw [List.get?_cons_succ] at h2
        exact (ih i j a b h1 h2).cons y

theorem swapL_perm {α : Type} (l : List α) (i j : Nat) :
    (swapL l i j).Perm l := by
  unfold swapL
  cases h1 : l.get? i with
  | none => simp [h1]
  | some a =>
    cases h2 : l.get? j with
    | none => simp [h1, h2]
    | some b =>
      simp only [h1, h2]
      exact set_set_perm l i j a b h1 h2

theorem length_swapL {α : Type} (l : List α) (i j : Nat) :
    (swapL l i j).length = l.length := by
  unfold swapL
  cases h1 : l.get? i <;> cases h2 : l.get? j <;> simp [List.length_set]

theorem swapL_get?_other {α : Type} (l : List α) (i j k : Nat)
    (hki : k ≠ i) (hkj : k ≠ j) : (swapL l i j).get? k = l.get? k := by
  unfold swapL
  cases h1 : l.get? i with
  | none => simp [h1]
  | some a =>
    cases h2 : l.get? j with
    | none => simp [h1, h2]
    | some b =>
      simp only [h1, h2]
      rw [List.get?_set, if_neg (by omega : ¬ j = k),
        List.get?_set, if_neg (by omega : ¬ i = k)]

theorem swapL_get?_snd {α : Type} (l : List α) (i j : Nat)
    (hi : i < l.length) (hj : j < l.length) :
    (swapL l i j).get? j = l.get? i := by
  have h1 : l.get? i = some l[i] := by
    rw [List.get?_eq_getElem?, List.getElem?_eq_getElem hi]
  have h2 : l.get? j = some l[j] := by
    rw [List.get?_eq_getElem?, List.getElem?_eq_getElem hj]
  have h3 : (l.set i l[j]).get? j = some ((l.set i l[j]).get
      ⟨j, by rw [List.length_set]; exact hj⟩) := by
    rw [List.get?_eq_getElem?, List.getElem?_eq_getElem]
    rfl
  unfold swapL
  simp only [h1, h2]
  rw [List.get?_set, if_pos rfl, h3]
  rfl

theorem siftUp_perm {α : Type} (less : α → α → Bool) :
    ∀ (j : Nat) (l : List α), (siftUp less l j).Perm l := by
  intro j
  induction j using Nat.strong_induction_on with
  | _ j ih =>
    intro l
    unfold siftUp
    dsimp only
    split
    · exact List.Perm.refl _
    · rename_i hij
      cases h1 : l.get? j with
      | none => simp [h1]
      | some aj =>
        cases h2 : l.get? ((j - 1) / 2) with
        | none => simp [h1, h2]
        | some ai =>
          simp only [h1, h2]
          split
          · exact (ih ((j - 1) / 2) (by omega) _).trans (swapL_perm l _ j)
          · exact List.Perm.refl _

theorem siftUp_length {α : Type} (less : α → α → Bool) :
    ∀ (j : Nat) (l : List α), (siftUp less l j).length = l.length := by
  intro j
  induction j using Nat.strong_induction_on with
  | _ j ih =>
    intro l
    unfold siftUp
    dsimp only
    split
    · rfl
    · rename_i hij
      cases h1 : l.get? j with
      | none => simp [h1]
      | some aj =>
        cases h2 : l.get? ((j - 1) / 2) with
        | none => simp [h1, h2]
        | some ai =>
          simp only [h1, h2]
          split
          · rw [ih ((j - 1) / 2) (by omega), length_swapL]
          · rfl

theorem siftUp_get?_gt {α : Type} (less : α → α → Bool) :
    ∀ (j : Nat) (l : List α) (k : Nat), j < k →
      (siftUp less l j).get? k = l.get? k := by
  intro j
  induction j using Nat.strong_induction_on with
  | _ j ih =>
    intro l k hk
    unfold siftUp
    dsimp only
    split
    · rfl
    · rename_i hij
      cases h1 : l.get? j with
      | none => simp [h1]
      | some aj =>
        cases h2 : l.get? ((j - 1) / 2) with
        | none => simp [h1, h2]
        | some ai =>
          simp only [h1, h2]
          split
          · rw [ih ((j - 1) / 2) (by omega) _ k (by omega),
              swapL_get?_other l _ j k (by omega) (by omega)]
          · rfl

theorem siftDownAux_facts {α : Type} (less : α → α → Bool) :
    ∀ (fuel : Nat) (l : List α) (i n : Nat), n - i ≤ fuel →
      ((siftDownAux less l i n).1).Perm l ∧
      (siftDownAux less l i n).1.length = l.length ∧
      (∀ k, n ≤ k → (siftDownAux less l i n).1.get? k = l.get? k) := by
  intro fuel
  induction fuel with
  | zero =>
    intro l i n hfuel
    unfold siftDownAux
    dsimp only
    rw [dif_pos (by omega : 2 * i + 1 ≥ n)]
    exact ⟨List.Perm.refl _, rfl, fun k _ => rfl⟩
  | succ fuel ih =>
    intro l i n hfuel
    unfold siftDownAux
    dsimp only
    split
    · exact ⟨List.Perm.refl _, rfl, fun k _ => rfl⟩
    · rename_i hj1
      have hjlt : pickChild less l (2 * i + 1) n < n :=
        pickChild_lt less l (by omega)
      have hjgt : 2 * i + 1 ≤ pickChild less l (2 * i + 1) n :=
        pickChild_gt less l _ n
      cases h1 : l.get? (pickChild less l (2 * i + 1) n) with
      | none =>
        simp only [h1]
        refine ⟨List.Perm.refl _, ?_, ?_⟩ <;> simp
      | some aj =>
        cases h2 : l.get? i with
        | none =>
          simp only [h1, h2]
          refine ⟨List.Perm.refl _, ?_, ?_⟩ <;> simp
        | some ai =>
          simp only [h1, h2]
          split
          · have hrec := ih (swapL l i (pickChild less l (2 * i + 1) n))
              (pickChild less l (2 * i + 1) n) n (by omega)
            refine ⟨hrec.1.trans (swapL_perm _ _ _), ?_, ?_⟩
            · rw [hrec.2.1, length_swapL]
            · intro k hk
              rw [hrec.2.2 k hk,
                swapL_get?_other _ _ _ k (by omega) (by omega)]
          · exact ⟨List.Perm.refl _, rfl, fun k _ => rfl⟩

theorem heapPush_perm {α : Type} (less : α → α → Bool) (l : List α) (x : α) :
    (heapPush less l x).Perm (x :: l) := by
  unfold heapPush
  exact (siftUp_perm less l.length (l ++ [x])).trans
    (List.perm_append_singleton x l)

theorem take_last_perm {α : Type} (l1 l : List α) (i n : Nat)
    (hn : n = l.length - 1) (hi : i < l.length)
    (hperm : l1.Perm l) (hlen : l1.length = l.length)
    (hget : l1.get? n = l.get? i) :
    (l1.take n ++ [l[i]]).Perm l := by
  have hnlt : n < l1.length := by omega
  have e1 : l1.get? n = some l1[n] := by
    rw [List.get?_eq_getElem?, List.getElem?_eq_getElem hnlt]
  have e2 : l.get? i = some l[i] := by
    rw [List.get?_eq_getElem?, List.getElem?_eq_getElem hi]
  rw [e1, e2] at hget
  injection hget with hget
  have hdrop : l1.drop n = [l[i]] := by
    rw [List.drop_eq_getElem_cons hnlt, hget,
      List.drop_eq_nil_of_le (by omega : l1.length ≤ n + 1)]
  rw [← hdrop, List.take_append_drop]
  exact hperm

theorem heapRemove_split {α : Type} (less : α → α → Bool) (l : List α)
    (i : Nat) (hi : i < l.length) :
    ((heapRemove less l i).1 ++ [l[i]]).Perm l := by
  unfold heapRemove
  dsimp only
  by_cases hni : l.length - 1 ≠ i
  · rw [if_pos hni]
    have hin : i < l.length - 1 := by omega
    have hnlt : l.length - 1 < l.length := by omega
    have hfacts := siftDownAux_facts less (l.length - 1 - i)
      (swapL l i (l.length - 1)) i (l.length - 1) le_rfl
    have hlen_la : (swapL l i (l.length - 1)).length = l.length :=
      length_swapL l i (l.length - 1)
    have hget_la : (swapL l i (l.length - 1)).get? (l.length - 1) = l.get? i :=
      swapL_get?_snd l i (l.length - 1) hi hnlt
    split
    · exact take_last_perm _ l i (l.length - 1) rfl hi
        (hfacts.1.trans (swapL_perm l i (l.length - 1)))
        (hfacts.2.1.trans hlen_la)
        ((hfacts.2.2 (l.length - 1) le_rfl).trans hget_la)
    · refine take_last_perm _ l i (l.length - 1) rfl hi
        ((siftUp_perm less i _).trans
          (hfacts.1.trans (swapL_perm l i (l.length - 1))))
        ((siftUp_length less i _).trans (hfacts.2.1.trans hlen_la)) ?_
      rw [siftUp_get?_gt less i _ (l.length - 1) hin]
      exact (hfacts.2.2 (l.length - 1) le_rfl).trans hget_la
  · rw [if_neg hni]
    have hieq : i = l.length - 1 := by omega
    exact take_last_perm l l i (l.length - 1) rfl hi (List.Perm.refl l) rfl
      (by rw [hieq])

/-! ### findIdx? helpers -/

theorem findIdx?_none_all {α : Type} (p : α → Bool) :
    ∀ (l : List α) (s : Nat), l.findIdx? p s = none → ∀ x ∈ l, p x = false := by
  intro l
  induction l with
  | nil => intro s _ x hx; cases hx
  | cons y ys ih =>
    intro s h x hx
    rw [List.findIdx?_cons] at h
    split at h
    · simp at h
    · rename_i hyp
      cases hx with
      | head =>
        cases hpy : p y
        · rfl
        · exact absurd hpy hyp
      | tail _ hmem => exact ih (s + 1) h x hmem

theorem findIdx?_some_get {α : Type} (p : α → Bool) :
    ∀ (l : List α) (s i : Nat), l.findIdx? p s = some i →
      s ≤ i ∧ i - s < l.length ∧ ∃ a, l.get? (i - s) = some a ∧ p a = true := by
  intro l
  induction l with
  | nil => intro s i h; rw [List.findIdx?_nil] at h; cases h
  | cons y ys ih =>
    intro s i h
    rw [List.findIdx?_cons] at h
    split at h
    · rename_i hpy
      injection h with h
      subst h
      exact ⟨le_rfl, by simp, ⟨y, by rw [Nat.sub_self, List.get?_cons_zero], hpy⟩⟩
    · obtain ⟨hsi, hlt, a, hget, hpa⟩ := ih (s + 1) i h
      refine ⟨by omega, by simp only [List.length_cons]; omega, a, ?_, hpa⟩
      rw [show i - s = (i - (s + 1)) + 1 from by omega, List.get?_cons_succ]
      exact hget

/-! ### Counting job names in the scheduler queue -/

/-- The number of entries of the queue carrying a given job name. -/
def countName (h : List entry) (name : String) : Nat :=
  h.countP (fun e => e.jobName = name)

theorem removeLockedByName_not_found (h : List entry) (name : String)
    (hz : countName h name = 0) : removeLockedByName h name = h := by
  unfold removeLockedByName
  cases hidx : h.findIdx? (fun e => e.jobName = name) with
  | none => rfl
  | some i =>
    obtain ⟨_, hlt, a, hget, hpa⟩ :=
      findIdx?_some_get (fun e => e.jobName = name) h 0 i hidx
    rw [Nat.sub_zero] at hget
    have hmem : a ∈ h := List.get?_mem hget
    rw [countName, List.countP_eq_zero] at hz
    exact absurd hpa (hz a hmem)

theorem removeLockedByName_found (h : List entry) (name : String) (i : Nat)
    (hidx : h.findIdx? (fun e => e.jobName = name) = some i) :
    ∃ e : entry, e.jobName = name ∧
      ∀ p : entry → Bool,
        ((removeLockedByName h name).countP p + (if p e = true then 1 else 0)
          = h.countP p) := by
  obtain ⟨_, hlt, a, hget, hpa⟩ :=
    findIdx?_some_get (fun e => e.jobName = name) h 0 i hidx
  rw [Nat.sub_zero] at hget hlt
  have ha : a = h[i] := by
    rw [List.get?_eq_getElem?, List.getElem?_eq_getElem hlt] at hget
    injection hget with hget
    exact hget.symm
  refine ⟨a, by simpa using hpa, ?_⟩
  intro p
  unfold removeLockedByName
  rw [hidx]
  have hperm := heapRemove_split entryHeapLess h i hlt
  have hcnt := hperm.countP_eq p
  rw [List.countP_append] at hcnt
  rw [← hcnt, ha]
  congr 1
  simp [List.countP_cons]

theorem countName_removeLocked_le (h : List entry) (name nm : String) :
    countName (removeLockedByName h name) nm ≤ countName h nm := by
  unfold removeLockedByName
  cases hidx : h.findIdx? (fun e => e.jobName = name) with
  | none => exact le_rfl
  | some i =>
    obtain ⟨e, _, hcount⟩ := removeLockedByName_found h name i hidx
    have := hcount (fun x => x.jobName = nm)
    unfold removeLockedByName at this
    rw [hidx] at this
    unfold countName
    omega

theorem countName_removeLocked_self (h : List entry) (name : String)
    (hle : countName h name ≤ 1) :
    countName (removeLockedByName h name) name = 0 := by
  cases hidx : h.findIdx? (fun e => e.jobName = name) with
  | none =>
    have hall := findIdx?_none_all (fun e => e.jobName = name) h 0 hidx
    have hz : countName h name = 0 := by
      rw [countName, List.countP_eq_zero]
      intro a hmem
      simp [hall a hmem]
    rw [removeLockedByName_not_found h name hz]
    exact hz
  | some i =>
    obtain ⟨e, hename, hcount⟩ := removeLockedByName_found h name i hidx
    have := hcount (fun x => x.jobName = name)
    rw [if_pos (by simp [hename])] at this
    unfold countName at *
    omega

theorem countName_removeLocked_other (h : List entry) (name other : String)
    (hne : other ≠ name) :
    countName (removeLockedByName h name) other = countName h other := by
  cases hidx : h.findIdx? (fun e => e.jobName = name) with
  | none =>
    unfold removeLockedByName
    rw [hidx]
  | some i =>
    obtain ⟨e, hename, hcount⟩ := removeLockedByName_found h name i hidx
    have := hcount (fun x => x.jobName = other)
    rw [if_neg (by simp [hename]; exact fun hcontra => hne hcontra.symm)] at this
    unfold countName
    omega

theorem countName_addJob (h : List entry) (name : String) (sched : Nat → Nat)
    (now : Nat) (nm : String) :
    countName (addJob h name sched now) nm =
      countName (removeLockedByName h name) nm +
        (if name = nm then 1 else 0) := by
  unfold addJob countName
  dsimp only
  have hperm := heapPush_perm entryHeapLess (removeLockedByName h name)
    { jobName := name, schedule := sched, nextRun := sched now }
  rw [hperm.countP_eq, List.countP_cons]
  simp

/-! ### Sequences of scheduler mutations -/

/-- One mutation of the scheduler queue: AddJob or RemoveJob. -/
inductive SchedOp where
  | add (name : String) (schedule : Nat → Nat) (now : Nat)
  | remove (name : String)

def applyOp (h : List entry) : SchedOp → List entry
  | .add name schedule now => addJob h name schedule now
  | .remove name => removeJob h name

/-- The queue resulting from a sequence of mutations on an empty queue. -/
def applyOps (ops : List SchedOp) : List entry :=
  ops.foldl applyOp []

theorem applyOp_inv (h : List entry) (op : SchedOp)
    (hinv : ∀ nm, countName h nm ≤ 1) :
    ∀ nm, countName (applyOp h op) nm ≤ 1 := by
  intro nm
  cases op with
  | add name sched now =>
    show countName (addJob h name sched now) nm ≤ 1
    rw [countName_addJob]
    by_cases hnm : name = nm
    · rw [if_pos hnm, hnm, countName_removeLocked_self h nm (hnm ▸ hinv nm)]
    · rw [if_neg hnm, countName_removeLocked_other h name nm
        (fun hc => hnm hc.symm)]
      have := hinv nm
      omega
  | remove name =>
    show countName (removeJob h name) nm ≤ 1
    unfold removeJob
    exact le_trans (countName_removeLocked_le h name nm) (hinv nm)

theorem applyOps_inv (ops : List SchedOp) :
    ∀ nm, countName (applyOps ops) nm ≤ 1 := by
  have main : ∀ (ops : List SchedOp) (h : List entry),
      (∀ nm, countName h nm ≤ 1) →
      ∀ nm, countName (ops.foldl applyOp h) nm ≤ 1 := by
    intro ops
    induction ops with
    | nil => intro h hinv; exact hinv
    | cons op ops ih =>
      intro h hinv
      exact ih (applyOp h op) (applyOp_inv h op hinv)
  exact main ops [] (by intro nm; simp [countName])

/-- C9: after any sequence of add and remove operations each job name
appears at most once in the queue; removing an absent name is a no-op; and
adding a present name replaces its entry (the name's count stays 1 and no
other name's count changes) instead of inserting a duplicate. -/
theorem claim_C9_unique_names :
    (∀ (ops : List SchedOp) (name : String),
      countName (applyOps ops) name ≤ 1) ∧
    (∀ (h : List entry) (name : String), countName h name = 0 →
      removeJob h name = h) ∧
    (∀ (h : List entry) (name : String) (sched : Nat → Nat) (now : Nat),
      (∀ nm, countName h nm ≤ 1) →
        countName (addJob h name sched now) name = 1 ∧
        ∀ other, other ≠ name →
          countName (addJob h name sched now) other = countName h other) := by
  refine ⟨fun ops name => applyOps_inv ops name, ?_, ?_⟩
  · intro h name hz
    unfold removeJob
    exact removeLockedByName_not_found h name hz
  · intro h name sched now hinv
    constructor
    · rw [countName_addJob, if_pos rfl,
        countName_removeLocked_self h name (hinv name)]
    · intro other hne
      rw [countName_addJob, if_neg (fun hc => hne hc.symm),
        countName_removeLocked_other h name other hne]
      omega

/-- A sample schedule for witnesses: next fire is instant 5, then 10 later. -/
def sampleSchedule : Nat → Nat := fun t => if t < 5 then 5 else t + 10

/-- Witness for C9 on a concrete operation sequence and queue. -/
theorem claim_C9_unique_names_witness :
    countName (applyOps [.add "a" sampleSchedule 0, .add "a" sampleSchedule 0,
      .remove "b"]) "a" ≤ 1 ∧
    removeJob [] "b" = [] ∧
    (countName (addJob [] "a" sampleSchedule 0) "a" = 1 ∧
      ∀ other, other ≠ "a" →
        countName (addJob [] "a" sampleSchedule 0) other = countName [] other) :=
  ⟨claim_C9_unique_names.1 _ "a",
   claim_C9_unique_names.2.1 [] "b" (by simp [countName]),
   claim_C9_unique_names.2.2 [] "a" sampleSchedule 0
     (by intro nm; simp [countName])⟩

/-- C2 counterexample: two jobs "a" and "b" are added with the same
next_fire instant 5; the claim says they fire in name-lexicographic order
("a" first), but the scheduler fires "b" first — entryHeap.Less compares
nextRun only, so the heap keeps them in insertion order "b", "a". -/
theorem claim_C2_tie_break_counterexample :
    addJob (addJob [] "b" sampleSchedule 0) "a" sampleSchedule 0 =
      [{ jobName := "b", schedule := sampleSchedule, nextRun := 5 },
       { jobName := "a", schedule := sampleSchedule, nextRun := 5 }] ∧
    (runTicks 3 (addJob (addJob [] "b" sampleSchedule 0) "a" sampleSchedule 0)
      5).1 = ["b", "a"] ∧
    (["b", "a"] : List String) ≠ ["a", "b"] := by
  refine ⟨?_, ?_, by decide⟩
  · simp [addJob, removeLockedByName, heapPush, siftUp, swapL, entryHeapLess,
      sampleSchedule]
  · simp [runTicks, addJob, heapPush, heapPop, removeLockedByName, siftUp,
      siftDownAux, pickChild, swapL, entryHeapLess, sampleSchedule]

/-- C2 amended: the scheduler min-heap is ordered by next_fire alone:
entryHeap.Less holds iff the first entry's next_fire is strictly earlier,
and for two entries with equal next_fire neither is Less than the other, so
ties are fired in heap order rather than name-lexicographic order. -/
theorem claim_C2_heap_order :
    (∀ e1 e2 : entry, entryHeapLess e1 e2 = true ↔ e1.nextRun < e2.nextRun) ∧
    (∀ e1 e2 : entry, e1.nextRun = e2.nextRun →
      entryHeapLess e1 e2 = false ∧ entryHeapLess e2 e1 = false) := by
  constructor
  · intro e1 e2
    simp [entryHeapLess]
  · intro e1 e2 h
    constructor <;> simp [entryHeapLess, h]

/-- Witness for C2's amended statement at two concrete equal-time entries. -/
theorem claim_C2_heap_order_witness :
    entryHeapLess { jobName := "a", schedule := sampleSchedule, nextRun := 5 }
      { jobName := "b", schedule := sampleSchedule, nextRun := 5 } = false ∧
    entryHeapLess { jobName := "b", schedule := sampleSchedule, nextRun := 5 }
      { jobName := "a", schedule := sampleSchedule, nextRun := 5 } = false :=
  claim_C2_heap_order.2 _ _ rfl

end Cronbat
